import Mathlib

/-!
Verification of the path-addressed read/write/render core of the NodeModal
component (src/src/features/modals/NodeModal/index.tsx).

The JavaScript value universe is modelled by `JSVal` (JSON values), numbers by
`JSNum` (NaN, the two infinities, or an exact rational; IEEE-754 rounding is
not modelled, as no claim depends on it).  Property access, object spread,
truthiness and string/array index coercion follow the ECMAScript semantics of
the constructs the source uses; prototype-inherited properties (which are
functions, outside the JSON data universe) are not modelled.
-/

set_option autoImplicit false

namespace NodeModal

/-- A JavaScript number: NaN, an infinity, or a finite value (exact rational). -/
inductive JSNum where
  | nan
  | inf
  | negInf
  | fin (q : ℚ)
deriving DecidableEq, Repr

/-- A JSON value as held by the parsed document. -/
inductive JSVal where
  | null
  | bool (b : Bool)
  | num (n : JSNum)
  | str (s : String)
  | obj (fields : List (String × JSVal))
  | arr (elems : List JSVal)
deriving Repr

/-- A path segment as produced by the graph layer: object key or array index. -/
inductive Seg where
  | key (s : String)
  | idx (n : Nat)
deriving DecidableEq, Repr

/-- Decimal digit character, `digitChar 7 = '7'`. -/
def digitChar (n : Nat) : Char := Char.ofNat (48 + n)

/-- Fuel-driven decimal rendering of a natural number (most significant first). -/
def natKeyAux : Nat → Nat → List Char
  | 0, _ => []
  | fuel + 1, n =>
    if n < 10 then [digitChar n]
    else natKeyAux fuel (n / 10) ++ [digitChar (n % 10)]

/-- The canonical decimal string of a natural number; this is the property key
a JavaScript numeric index is coerced to. -/
def natKey (n : Nat) : String := String.mk (natKeyAux (n + 1) n)

/-- Decimal value of a digit string (used to prove `natKey` injective). -/
def decodeDigits (cs : List Char) : Nat :=
  cs.foldl (fun a c => a * 10 + (c.toNat - 48)) 0

/-- The property key a segment is coerced to by JavaScript member access. -/
def keyStr : Seg → String
  | .key s => s
  | .idx n => natKey n

/-- JavaScript truthiness of a JSON value. -/
def truthy : JSVal → Bool
  | .null => false
  | .bool b => b
  | .num n => match n with
    | .nan => false
    | .fin q => decide (q ≠ 0)
    | _ => true
  | .str s => decide (s ≠ "")
  | .obj _ => true
  | .arr _ => true

/-- First-match association-list lookup (JavaScript own-property lookup). -/
def lookupFirst {α : Type} : List (String × α) → String → Option α
  | [], _ => none
  | (k, v) :: t, s => if k = s then some v else lookupFirst t s

/-- Rebinding one key in a property table, as `\x7b...obj, [key]: value\x7d` and
`obj[key] = value` do: an existing key keeps its creation position and gets
the new value, a fresh key is appended.  The table records property creation
order; observers (enumeration, `JSON.stringify`) see it through `enumOrder`,
which moves array-index keys to the numeric front as ECMAScript prescribes. -/
def setEntry {α : Type} (l : List (String × α)) (k : String) (v : α) :
    List (String × α) :=
  if l.any (fun e => decide (e.1 = k)) then
    l.map (fun e => if e.1 = k then (k, v) else e)
  else l ++ [(k, v)]

/-- Index-keyed entry list starting at index `i`: the own enumerable
properties of an array (or of a string, via `f`). -/
def entriesFrom {α : Type} (f : α → JSVal) : Nat → List α → List (String × JSVal)
  | _, [] => []
  | i, x :: xs => (natKey i, f x) :: entriesFrom f (i + 1) xs

/-- Own enumerable properties of an array. -/
def arrEntries (es : List JSVal) : List (String × JSVal) := entriesFrom id 0 es

/-- Own enumerable properties of a string (its characters). -/
def strEntries (s : String) : List (String × JSVal) :=
  entriesFrom (fun c => JSVal.str (String.mk [c])) 0 s.data

/-- The own enumerable properties a value contributes to an object spread
`\x7b...v\x7d`: objects give their fields, arrays and strings their indexed
elements, every other value nothing. -/
def spreadEntries : JSVal → List (String × JSVal)
  | .obj fields => fields
  | .arr es => arrEntries es
  | .str s => strEntries s
  | _ => []

/-- Reading a genuine entry (a subtree) of a container by property key. -/
def entryGet (v : JSVal) (k : String) : Option JSVal :=
  lookupFirst (spreadEntries v) k

/-- Structural read along a chain of property keys, `none`-short-circuiting. -/
def entryGetPath : JSVal → List String → Option JSVal
  | v, [] => some v
  | v, k :: ks =>
    match entryGet v k with
    | some t => entryGetPath t ks
    | none => none

/-- JavaScript member access `v[seg]` for a non-nullish receiver: own data
properties only (arrays and strings also expose `length`).  Prototype
methods are functions and lie outside the JSON value universe. -/
def jsIndex (v : JSVal) (k : Seg) : Option JSVal :=
  let ks := keyStr k
  match v with
  | .null => none
  | .obj fields => lookupFirst fields ks
  | .arr es =>
    if ks = "length" then some (.num (.fin (es.length : ℚ))) else lookupFirst (arrEntries es) ks
  | .str s =>
    if ks = "length" then some (.num (.fin (s.length : ℚ))) else lookupFirst (strEntries s) ks
  | _ => none

/-- One step of `path.reduce((current, key) => current?.[key], obj)`:
optional chaining turns a nullish receiver into `undefined` and keeps going. -/
def getStep (c : Option JSVal) (k : Seg) : Option JSVal :=
  match c with
  | none => none
  | some v => jsIndex v k

/-- `getValueByPath` from the source:
`path.reduce((current, key) => current?.[key], obj)`. -/
def getValueByPath (obj : JSVal) (path : List Seg) : Option JSVal :=
  path.foldl getStep (some obj)

/-- `obj[key] || \x7b\x7d` from the source: the existing child when truthy,
otherwise a fresh empty object. -/
def childOr (obj : JSVal) (k : Seg) : JSVal :=
  match jsIndex obj k with
  | some c => if truthy c then c else .obj []
  | none => .obj []

/-- The object literal `\x7b...obj, [key]: value\x7d`: spread the receiver's
own enumerable properties into a fresh plain object, then bind `key`. -/
def spreadSet (obj : JSVal) (k : Seg) (v : JSVal) : JSVal :=
  .obj (setEntry (spreadEntries obj) (keyStr k) v)

/-- `setValueByPath` from the source.  A nullish receiver of the bare
`obj[key]` read in the recursive case throws a TypeError, modelled as
`Except.error`; the single-segment case only spreads and cannot throw. -/
def setValueByPath : JSVal → List Seg → JSVal → Except String JSVal
  | _, [], v => .ok v
  | obj, [k], v => .ok (spreadSet obj k v)
  | .null, _ :: _ :: _, _ => .error "TypeError: Cannot read properties of null"
  | obj, k :: k1 :: rest, v =>
    (setValueByPath (childOr obj k) (k1 :: rest) v).map (fun inner => spreadSet obj k inner)

/-! ## Value coercion (`parseJsonValue`) -/

/-- Whitespace stripped by JavaScript string-to-number coercion (the common
ASCII forms; exotic Unicode spaces do not occur in the claims). -/
def jsWhitespace (c : Char) : Bool :=
  c == ' ' || c == '\t' || c == '\n' || c == '\r' || c.toNat == 11 || c.toNat == 12

/-- Value of a hexadecimal digit character, if any. -/
def radixDigitVal (c : Char) : Option Nat :=
  if c.isDigit then some (c.toNat - 48)
  else if 'a' ≤ c ∧ c ≤ 'f' then some (c.toNat - 87)
  else if 'A' ≤ c ∧ c ≤ 'F' then some (c.toNat - 55)
  else none

/-- Non-decimal numeric literal (`0x...`, `0o...`, `0b...`) of ToNumber. -/
def parseRadix (b : Nat) (cs : List Char) : JSNum :=
  if cs ≠ [] ∧ cs.all (fun c => ((radixDigitVal c).map (fun v => decide (v < b))).getD false) then
    .fin ((cs.foldl (fun a c => a * b + (radixDigitVal c).getD 0) 0 : Nat) : ℚ)
  else .nan

/-- Ten to an integer power, as an exact rational. -/
def powTen (e : Int) : ℚ :=
  if 0 ≤ e then (10 : ℚ) ^ e.toNat else 1 / (10 : ℚ) ^ (-e).toNat

/-- The StrDecimalLiteral part of ToNumber: digits, optional fraction,
optional exponent; anything else is NaN.  The numeric value is kept exact. -/
def parseDec (cs : List Char) (sign : ℚ) : JSNum :=
  let mant := cs.takeWhile (fun c => !(c == 'e' || c == 'E'))
  let erest := cs.drop mant.length
  let ip := mant.takeWhile (fun c => !(c == '.'))
  let fp := (mant.drop ip.length).drop 1
  let expVal : Option Int :=
    match erest with
    | [] => some 0
    | _ :: etail =>
      match etail with
      | '+' :: t =>
        if t ≠ [] ∧ t.all Char.isDigit then some ((decodeDigits t : Nat) : Int) else none
      | '-' :: t =>
        if t ≠ [] ∧ t.all Char.isDigit then some (-((decodeDigits t : Nat) : Int)) else none
      | t =>
        if t ≠ [] ∧ t.all Char.isDigit then some ((decodeDigits t : Nat) : Int) else none
  if ip.all Char.isDigit ∧ fp.all Char.isDigit ∧ (ip ≠ [] ∨ fp ≠ []) then
    match expVal with
    | some e =>
      .fin (sign * ((decodeDigits ip : ℚ) + (decodeDigits fp : ℚ) / (10 : ℚ) ^ fp.length) * powTen e)
    | none => .nan
  else .nan

/-- Unsigned part of a signed ToNumber literal: `Infinity` or a decimal. -/
def parseUnsigned (cs : List Char) (sign : ℚ) : JSNum :=
  if cs = "Infinity".data then (if sign < 0 then .negInf else .inf) else parseDec cs sign

/-- Optional sign, then the unsigned literal. -/
def parseSigned (cs : List Char) : JSNum :=
  match cs with
  | '+' :: rest => parseUnsigned rest 1
  | '-' :: rest => parseUnsigned rest (-1)
  | _ => parseUnsigned cs 1

/-- `Number(value)` on a string: trim whitespace, empty means zero, a
`0x`/`0o`/`0b` prefix selects a radix literal (unsigned only), otherwise a
signed decimal literal or `Infinity`. -/
def jsStringToNumber (s : String) : JSNum :=
  let cs := ((s.data.dropWhile jsWhitespace).reverse.dropWhile jsWhitespace).reverse
  match cs with
  | [] => .fin 0
  | '0' :: c :: rest =>
    if c == 'x' || c == 'X' then parseRadix 16 rest
    else if c == 'b' || c == 'B' then parseRadix 2 rest
    else if c == 'o' || c == 'O' then parseRadix 8 rest
    else parseSigned cs
  | _ => parseSigned cs

/-- `isNaN(num)` for a value already of number type. -/
def JSNum.isNaN : JSNum → Bool
  | .nan => true
  | _ => false

/-- `value.toLowerCase()` (ASCII case mapping, which is all the comparison
against `"true"` can be sensitive to). -/
def jsToLower (s : String) : String := s.map Char.toLower

/-- `parseJsonValue` from the source. -/
def parseJsonValue (value : String) (ty : String) : Except String JSVal :=
  if ty = "boolean" then .ok (.bool (jsToLower value == "true"))
  else if ty = "number" then
    let num := jsStringToNumber value
    if num.isNaN then .error "Invalid number" else .ok (.num num)
  else if ty = "null" then .ok .null
  else .ok (.str value)

/-! ## JSON rendering (`JSON.stringify(v, null, 2)`) -/

/-- Lower-case hexadecimal digit character. -/
def hexDigit (n : Nat) : Char := if n < 10 then digitChar n else Char.ofNat (87 + n)

/-- JSON string escaping of one character. -/
def escapeChar (c : Char) : String :=
  if c = '"' then "\\\""
  else if c = '\\' then "\\\\"
  else if c = '\n' then "\\n"
  else if c = '\r' then "\\r"
  else if c = '\t' then "\\t"
  else if c.toNat = 8 then "\\b"
  else if c.toNat = 12 then "\\f"
  else if c.toNat < 32 then "\\u00" ++ String.mk [hexDigit (c.toNat / 16), hexDigit (c.toNat % 16)]
  else String.mk [c]

/-- A JSON string literal. -/
def quoteStr (s : String) : String := "\"" ++ String.join (s.data.map escapeChar) ++ "\""

/-- Decimal fraction digits of `num / den` by long division (fuel-bounded;
exact whenever the expansion terminates within the fuel, which covers every
value the claims evaluate). -/
def fracDigits : Nat → Nat → Nat → List Char
  | 0, _, _ => []
  | fuel + 1, num, den =>
    if num = 0 then [] else digitChar (num * 10 / den) :: fracDigits fuel (num * 10 % den) den

/-- Decimal rendering of an integer. -/
def intRepr (i : Int) : String :=
  if i < 0 then "-" ++ natKey i.natAbs else natKey i.natAbs

/-- Decimal rendering of a finite JavaScript number.  Integers render exactly
as JavaScript does; fractions render by decimal expansion (IEEE-754
shortest-round-trip formatting is not modelled, no claim depends on it). -/
def ratRepr (q : ℚ) : String :=
  if q.den = 1 then intRepr q.num
  else
    (if q < 0 then "-" else "") ++ natKey (q.num.natAbs / q.den) ++ "." ++
      String.mk (fracDigits 64 (q.num.natAbs % q.den) q.den)

/-- JSON rendering of a number: non-finite numbers serialize as `null`. -/
def numJson : JSNum → String
  | .fin q => ratRepr q
  | _ => "null"

/-- An ECMAScript array-index property key: a canonical decimal numeral whose
value is below 2 ^ 32 - 1.  Such keys enumerate before every other string
key, in ascending numeric order. -/
def keyArrayIndex (k : String) : Option Nat :=
  match k.data with
  | [] => none
  | c :: cs =>
    if (c :: cs).all Char.isDigit ∧ (c = '0' → cs = []) then
      (if decodeDigits (c :: cs) < 4294967295 then some (decodeDigits (c :: cs)) else none)
    else none

/-- Numeric value used to order array-index keys (the default 0 is never
reached on the index-keyed sublists this sorts). -/
def idxVal {α : Type} (e : String × α) : Nat := (keyArrayIndex e.1).getD 0

/-- Stable insertion of an entry into an index-sorted entry list. -/
def insertByIdx {α : Type} (e : String × α) :
    List (String × α) → List (String × α)
  | [] => [e]
  | x :: xs => if idxVal e ≤ idxVal x then e :: x :: xs else x :: insertByIdx e xs

/-- Stable insertion sort of entries by ascending array-index value. -/
def sortByIdx {α : Type} : List (String × α) → List (String × α)
  | [] => []
  | x :: xs => insertByIdx x (sortByIdx xs)

/-- ECMAScript OwnPropertyKeys enumeration order of a property table held in
creation order: array-index keys first, in ascending numeric order, then the
remaining string keys in creation order.  `JSON.stringify` follows it. -/
def enumOrder {α : Type} (l : List (String × α)) : List (String × α) :=
  sortByIdx (l.filter (fun e => (keyArrayIndex e.1).isSome)) ++
    l.filter (fun e => (keyArrayIndex e.1).isNone)

/-- Indentation of `2 * n` spaces. -/
def pad (n : Nat) : String := String.mk (List.replicate (2 * n) ' ')

/-- Fuel-driven body of `JSON.stringify(v, null, 2)`. -/
def stringifyF : Nat → Nat → JSVal → String
  | 0, _, _ => ""
  | fuel + 1, ind, v =>
    match v with
    | .null => "null"
    | .bool b => if b then "true" else "false"
    | .num n => numJson n
    | .str s => quoteStr s
    | .obj [] => "\x7b\x7d"
    | .obj fields =>
      "\x7b\n" ++
        String.intercalate ",\n"
          ((enumOrder fields).map
            (fun e => pad (ind + 1) ++ quoteStr e.1 ++ ": " ++ stringifyF fuel (ind + 1) e.2)) ++
        "\n" ++ pad ind ++ "\x7d"
    | .arr [] => "[]"
    | .arr es =>
      "[\n" ++
        String.intercalate ",\n" (es.map (fun e => pad (ind + 1) ++ stringifyF fuel (ind + 1) e)) ++
        "\n" ++ pad ind ++ "]"

mutual

/-- Nesting depth of a JSON value (fuel bound for `stringifyF`). -/
def depth : JSVal → Nat
  | .null => 0
  | .bool _ => 0
  | .num _ => 0
  | .str _ => 0
  | .obj fields => 1 + depthFields fields
  | .arr es => 1 + depthElems es

/-- Greatest depth among object field values. -/
def depthFields : List (String × JSVal) → Nat
  | [] => 0
  | (_, v) :: t => max (depth v) (depthFields t)

/-- Greatest depth among array elements. -/
def depthElems : List JSVal → Nat
  | [] => 0
  | v :: t => max (depth v) (depthElems t)

end

/-- `JSON.stringify(v, null, 2)`: the nesting depth of `v` bounds the
recursion, so `depth v + 1` fuel always suffices. -/
def jsonStringify (v : JSVal) : String := stringifyF (depth v + 1) 0 v

/-! ## Node content view (`normalizeNodeData`) -/

/-- A JSON scalar, as carried by a node row (container-typed rows carry no
value, per the flattened-row data model). -/
inductive JSPrim where
  | pstr (s : String)
  | pnum (n : JSNum)
  | pbool (b : Bool)
  | pnull
deriving DecidableEq, Repr

/-- One flattened row of a selected node: optional key, optional scalar
value, and a type tag. -/
structure NodeRow where
  key : Option String
  value : Option JSPrim
  type : String
deriving DecidableEq, Repr

/-- JavaScript truthiness of `row.key` (absent or empty string is falsy). -/
def rowKeyTruthy (r : NodeRow) : Bool :=
  match r.key with
  | some s => decide (s ≠ "")
  | none => false

/-- Whether the row's type tag is scalar (not `array`, not `object`). -/
def rowScalarType (r : NodeRow) : Bool :=
  decide (r.type ≠ "array") && decide (r.type ≠ "object")

/-- Template-literal stringification of a row value (`\x24\x7bvalue\x7d`). -/
def jsTemplate : Option JSPrim → String
  | none => "undefined"
  | some (.pstr s) => s
  | some (.pnum .nan) => "NaN"
  | some (.pnum .inf) => "Infinity"
  | some (.pnum .negInf) => "-Infinity"
  | some (.pnum (.fin q)) => ratRepr q
  | some (.pbool b) => if b then "true" else "false"
  | some .pnull => "null"

/-- JSON rendering of a row value. -/
def primJson : JSPrim → String
  | .pstr s => quoteStr s
  | .pnum n => numJson n
  | .pbool b => if b then "true" else "false"
  | .pnull => "null"

/-- One iteration of the forEach loop of `normalizeNodeData`: a scalar-typed
row with a truthy key is assigned (`obj[row.key] = row.value`). -/
def rowStep (acc : List (String × Option JSPrim)) (r : NodeRow) :
    List (String × Option JSPrim) :=
  if rowScalarType r then
    (if rowKeyTruthy r then setEntry acc (r.key.getD "") r.value else acc)
  else acc

/-- The object built by the forEach loop of `normalizeNodeData`. -/
def buildEntries (rows : List NodeRow) : List (String × Option JSPrim) :=
  rows.foldl rowStep []

/-- `JSON.stringify(obj, null, 2)` for a flat object of scalar-or-undefined
values: keys are emitted in ECMAScript enumeration order (`enumOrder`) and
undefined-valued properties are skipped. -/
def stringifyFlat (entries : List (String × Option JSPrim)) : String :=
  let parts := (enumOrder entries).filterMap
    (fun e => e.2.map (fun v => "  " ++ quoteStr e.1 ++ ": " ++ primJson v))
  if parts = [] then "\x7b\x7d"
  else "\x7b\n" ++ String.intercalate ",\n" parts ++ "\n\x7d"

/-- `normalizeNodeData` from the source. -/
def normalizeNodeData (rows : List NodeRow) : String :=
  match rows with
  | [] => "\x7b\x7d"
  | r :: rest =>
    if rest = [] && !rowKeyTruthy r then jsTemplate r.value
    else stringifyFlat (buildEntries (r :: rest))

/-- The mapping the spec describes for the multi-row case: each row's key to
its value, skipping only rows whose type is `array` or `object` (no condition
on the key). -/
def buildEntriesSpecView (rows : List NodeRow) : List (String × Option JSPrim) :=
  rows.foldl
    (fun acc r => if rowScalarType r then setEntry acc (r.key.getD "") r.value else acc)
    []

/-- Follows the spec's words for the node content view: empty rows render
`\x7b\x7d`; a single row with an absent key renders its stringified value;
otherwise the mapping of every row's key to its value, skipping only
container-typed rows, is pretty-printed.  Used only to compare against
`normalizeNodeData`. -/
def normalizeNodeDataSpecView (rows : List NodeRow) : String :=
  match rows with
  | [] => "\x7b\x7d"
  | r :: rest =>
    if rest = [] && r.key.isNone then jsTemplate r.value
    else stringifyFlat (buildEntriesSpecView (r :: rest))

/-- Whether a value is an array. -/
def isArr : JSVal → Bool
  | .arr _ => true
  | _ => false

/-! ## Edit session (`handleSave`) -/

/-- The externally visible outcome of one `handleSave` invocation: the
payload handed to `setContents` (if any), whether the component is still in
edit mode afterwards (it was editing when save was pressed), the toasts, and
whether the modal was closed. -/
structure SaveResult where
  persisted : Option (String × Bool)
  isEditingAfter : Bool
  toastError : Option String
  toastSuccess : Bool
  modalClosed : Bool
deriving DecidableEq, Repr

/-- A failed save: only an error toast, nothing else changes. -/
def saveFailure (msg : String) : SaveResult :=
  { persisted := none, isEditingAfter := true, toastError := some msg,
    toastSuccess := false, modalClosed := false }

/-- `handleSave` from the source.  `pathOpt` is `none` when `nodeData?.path`
is nullish (only then does the root-node guard fire); `parseResult` is the
outcome of `JSON.parse(getJson())`, whose throw is caught like every other
failure. -/
def handleSave (pathOpt : Option (List Seg)) (parseResult : Except String JSVal)
    (editValue editType : String) : SaveResult :=
  match pathOpt with
  | none => saveFailure "Cannot edit root node"
  | some path =>
    match parseResult with
    | .error m => saveFailure m
    | .ok json =>
      match parseJsonValue editValue editType with
      | .error m => saveFailure m
      | .ok newValue =>
        match setValueByPath json path newValue with
        | .error m => saveFailure m
        | .ok updated =>
          { persisted := some (jsonStringify updated, true), isEditingAfter := false,
            toastError := none, toastSuccess := true, modalClosed := true }

/-! ## Helper lemmas -/

theorem digitChar_isDigit : ∀ m, m < 10 → (digitChar m).isDigit = true := by decide

theorem digitChar_toNat : ∀ m, m < 10 → (digitChar m).toNat = 48 + m := by decide

theorem natKeyAux_digits : ∀ (fuel n : Nat), ∀ c ∈ natKeyAux fuel n, c.isDigit = true := by
  intro fuel
  induction fuel with
  | zero => intro n c h; simp [natKeyAux] at h
  | succ f ih =>
    intro n c h
    by_cases h10 : n < 10
    · simp [natKeyAux, h10] at h
      subst h
      exact digitChar_isDigit n h10
    · simp [natKeyAux, h10, List.mem_append] at h
      rcases h with h | h
      · exact ih _ _ h
      · subst h
        exact digitChar_isDigit _ (Nat.mod_lt _ (by norm_num))

theorem decodeDigits_append (cs : List Char) (c : Char) :
    decodeDigits (cs ++ [c]) = decodeDigits cs * 10 + (c.toNat - 48) := by
  simp [decodeDigits, List.foldl_append]

theorem decode_natKeyAux : ∀ (fuel n : Nat), n < 10 ^ fuel →
    decodeDigits (natKeyAux fuel n) = n := by
  intro fuel
  induction fuel with
  | zero => intro n h; interval_cases n; rfl
  | succ f ih =>
    intro n h
    by_cases h10 : n < 10
    · rw [natKeyAux, if_pos h10]
      simp only [decodeDigits, List.foldl, digitChar_toNat n h10]
      omega
    · rw [natKeyAux, if_neg h10, decodeDigits_append, ih (n / 10) ?hdiv,
        digitChar_toNat _ (Nat.mod_lt _ (by norm_num))]
      · omega
      case hdiv =>
        rw [pow_succ] at h
        exact Nat.div_lt_iff_lt_mul (by norm_num) |>.mpr h

theorem decode_natKey (n : Nat) : decodeDigits (natKey n).data = n := by
  have hlt : n < 10 ^ (n + 1) :=
    lt_of_lt_of_le (Nat.lt_pow_self (by norm_num) n)
      (Nat.pow_le_pow_right (by norm_num) (Nat.le_succ n))
  exact decode_natKeyAux (n + 1) n hlt

theorem natKey_injective : Function.Injective natKey := by
  intro m n h
  have hm := decode_natKey m
  rw [h, decode_natKey n] at hm
  exact hm.symm

theorem natKey_ne_length (n : Nat) : natKey n ≠ "length" := by
  intro h
  have hmem : ('l' : Char) ∈ (natKey n).data := by
    rw [h]; decide
  have := natKeyAux_digits (n + 1) n 'l' hmem
  exact absurd this (by decide)

theorem lookupFirst_map_rebind {α : Type} (k k' : String) (v : α) (h : k' ≠ k) :
    ∀ l : List (String × α),
      lookupFirst (l.map (fun e => if e.1 = k then (k, v) else e)) k' = lookupFirst l k' := by
  intro l
  induction l with
  | nil => rfl
  | cons e t ih =>
    rw [List.map_cons]
    by_cases he : e.1 = k
    · rw [if_pos he]
      show (if k = k' then some v else _) = (if e.1 = k' then some e.2 else _)
      have hek : ¬e.1 = k' := by rw [he]; exact Ne.symm h
      rw [if_neg (Ne.symm h), if_neg hek]
      exact ih
    · rw [if_neg he]
      show (if e.1 = k' then some e.2 else _) = (if e.1 = k' then some e.2 else _)
      by_cases hek : e.1 = k'
      · rw [if_pos hek, if_pos hek]
      · rw [if_neg hek, if_neg hek]
        exact ih

theorem lookupFirst_append_fresh {α : Type} (k k' : String) (v : α) (h : k' ≠ k) :
    ∀ l : List (String × α), lookupFirst (l ++ [(k, v)]) k' = lookupFirst l k' := by
  intro l
  induction l with
  | nil =>
    rw [List.nil_append]
    show (if k = k' then some v else lookupFirst [] k') = _
    rw [if_neg (Ne.symm h)]
  | cons e t ih =>
    rw [List.cons_append]
    show (if e.1 = k' then some e.2 else _) = (if e.1 = k' then some e.2 else _)
    by_cases hek : e.1 = k'
    · rw [if_pos hek, if_pos hek]
    · rw [if_neg hek, if_neg hek]
      exact ih

theorem lookupFirst_setEntry_ne {α : Type} (l : List (String × α)) (k k' : String) (v : α)
    (h : k' ≠ k) : lookupFirst (setEntry l k v) k' = lookupFirst l k' := by
  by_cases hany : l.any (fun e => decide (e.1 = k))
  · rw [setEntry, if_pos hany]
    exact lookupFirst_map_rebind k k' v h l
  · rw [setEntry, if_neg hany]
    exact lookupFirst_append_fresh k k' v h l

theorem lookupFirst_map_rebind_self {α : Type} (k : String) (v : α) :
    ∀ l : List (String × α), (∃ e ∈ l, e.1 = k) →
      lookupFirst (l.map (fun e => if e.1 = k then (k, v) else e)) k = some v := by
  intro l
  induction l with
  | nil => intro hex; simp at hex
  | cons e t ih =>
    intro hex
    rw [List.map_cons]
    by_cases he : e.1 = k
    · rw [if_pos he]
      show (if k = k then some v else _) = some v
      rw [if_pos rfl]
    · rw [if_neg he]
      show (if e.1 = k then some e.2 else _) = some v
      rw [if_neg he]
      rcases hex with ⟨e', he', hk⟩
      rcases List.mem_cons.mp he' with rfl | hmem
      · exact absurd hk he
      · exact ih ⟨e', hmem, hk⟩

theorem lookupFirst_append_last_self {α : Type} (k : String) (v : α) :
    ∀ l : List (String × α), (∀ e ∈ l, e.1 ≠ k) →
      lookupFirst (l ++ [(k, v)]) k = some v := by
  intro l
  induction l with
  | nil =>
    intro _
    rw [List.nil_append]
    show (if k = k then some v else _) = some v
    rw [if_pos rfl]
  | cons e t ih =>
    intro hall
    rw [List.cons_append]
    show (if e.1 = k then some e.2 else _) = some v
    rw [if_neg (hall e (by simp))]
    exact ih (fun e' he' => hall e' (List.mem_cons_of_mem _ he'))

theorem lookupFirst_setEntry_self {α : Type} (l : List (String × α)) (k : String) (v : α) :
    lookupFirst (setEntry l k v) k = some v := by
  by_cases hany : l.any (fun e => decide (e.1 = k))
  · rw [setEntry, if_pos hany]
    have hex : ∃ e ∈ l, e.1 = k := by simpa using List.any_eq_true.mp hany
    exact lookupFirst_map_rebind_self k v l hex
  · rw [setEntry, if_neg hany]
    have hall : ∀ e ∈ l, e.1 ≠ k := by
      intro e he
      have := List.any_eq_false.mp (Bool.eq_false_iff.mpr hany) e he
      simpa using this
    exact lookupFirst_append_last_self k v l hall

theorem lookupFirst_entriesFrom {α : Type} (f : α → JSVal) :
    ∀ (l : List α) (i n : Nat),
      lookupFirst (entriesFrom f i l) (natKey n) =
        if i ≤ n then (l[n - i]?).map f else none := by
  intro l
  induction l with
  | nil => intro i n; simp [entriesFrom, lookupFirst]
  | cons x xs ih =>
    intro i n
    by_cases hin : natKey i = natKey n
    · have : i = n := natKey_injective hin
      subst this
      simp [entriesFrom, lookupFirst]
    · have hne : i ≠ n := fun hh => hin (by rw [hh])
      rw [entriesFrom]
      simp only [lookupFirst, if_pos, if_neg hin]
      rw [ih (i + 1) n]
      rcases Nat.lt_or_ge n i with hlt | hge
      · rw [if_neg (by omega), if_neg (by omega)]
      · have hgt : i < n := lt_of_le_of_ne hge hne
        rw [if_pos (by omega), if_pos (by omega)]
        have : n - i = (n - (i + 1)) + 1 := by omega
        rw [this, List.getElem?_cons_succ]

theorem lookupFirst_entriesFrom_length {α : Type} (f : α → JSVal) :
    ∀ (l : List α) (i : Nat), lookupFirst (entriesFrom f i l) "length" = none := by
  intro l
  induction l with
  | nil => intro i; rfl
  | cons x xs ih =>
    intro i
    simp [entriesFrom, lookupFirst, natKey_ne_length i, ih (i + 1)]

theorem jsIndex_arr_idx (es : List JSVal) (n : Nat) :
    jsIndex (.arr es) (.idx n) = es[n]? := by
  show (if natKey n = "length" then _ else lookupFirst (arrEntries es) (natKey n)) = _
  rw [if_neg (natKey_ne_length n), arrEntries, lookupFirst_entriesFrom, if_pos (Nat.zero_le n)]
  simp

theorem jsIndex_str_idx (s : String) (n : Nat) :
    jsIndex (.str s) (.idx n) =
      (s.data[n]?).map (fun c => JSVal.str (String.mk [c])) := by
  show (if natKey n = "length" then _ else lookupFirst (strEntries s) (natKey n)) = _
  rw [if_neg (natKey_ne_length n), strEntries, lookupFirst_entriesFrom, if_pos (Nat.zero_le n)]
  simp

theorem foldl_getStep_none : ∀ p : List Seg, p.foldl getStep none = none := by
  intro p
  induction p with
  | nil => rfl
  | cons k t ih => simpa [getStep] using ih

theorem getValueByPath_cons (D : JSVal) (k : Seg) (p : List Seg) :
    getValueByPath D (k :: p) =
      match jsIndex D k with
      | some t => getValueByPath t p
      | none => none := by
  show (k :: p).foldl getStep (some D) = _
  rw [List.foldl_cons]
  cases h : jsIndex D k with
  | none => simp [getStep, h, foldl_getStep_none]
  | some t =>
    simp only [getStep, h]
    rfl

theorem setValueByPath_nil (D v : JSVal) : setValueByPath D [] v = .ok v := by
  cases D <;> rfl

theorem setValueByPath_single (D : JSVal) (k : Seg) (v : JSVal) :
    setValueByPath D [k] v = .ok (spreadSet D k v) := by
  cases D <;> rfl

theorem setValueByPath_cons_cons (D : JSVal) (hD : D ≠ .null) (k k1 : Seg) (rest : List Seg)
    (v : JSVal) :
    setValueByPath D (k :: k1 :: rest) v =
      (setValueByPath (childOr D k) (k1 :: rest) v).map (fun inner => spreadSet D k inner) := by
  cases D with
  | null => exact absurd rfl hD
  | bool b => rfl
  | num n => rfl
  | str s => rfl
  | obj fields => rfl
  | arr es => rfl

theorem setValueByPath_cons_cons_ok {D : JSVal} {k k1 : Seg} {rest : List Seg} {v D' : JSVal}
    (h : setValueByPath D (k :: k1 :: rest) v = .ok D') :
    D ≠ .null ∧ ∃ inner, setValueByPath (childOr D k) (k1 :: rest) v = .ok inner ∧
      D' = spreadSet D k inner := by
  have hD : D ≠ .null := by
    intro hnull
    subst hnull
    exact absurd h (by simp [setValueByPath])
  rw [setValueByPath_cons_cons D hD] at h
  cases hh : setValueByPath (childOr D k) (k1 :: rest) v with
  | error m =>
    rw [hh] at h
    exact absurd h (by simp [Except.map])
  | ok inner =>
    rw [hh] at h
    simp [Except.map] at h
    exact ⟨hD, inner, rfl, h.symm⟩

theorem childOr_ne_null (D : JSVal) (k : Seg) : childOr D k ≠ .null := by
  cases h : jsIndex D k with
  | none => simp [childOr, h]
  | some c =>
    by_cases ht : truthy c
    · simp only [childOr, h, if_pos ht]
      intro hh
      subst hh
      simp [truthy] at ht
    · simp [childOr, h, if_neg ht]

theorem setValueByPath_total : ∀ (p : List Seg) (D v : JSVal),
    D ≠ .null ∨ p.length ≤ 1 → ∃ D', setValueByPath D p v = .ok D' := by
  intro p
  induction p with
  | nil => intro D v _; exact ⟨v, setValueByPath_nil D v⟩
  | cons k t ih =>
    cases t with
    | nil => intro D v _; exact ⟨spreadSet D k v, setValueByPath_single D k v⟩
    | cons k1 rest =>
      intro D v hor
      have hD : D ≠ .null := by
        rcases hor with h | h
        · exact h
        · simp at h
      obtain ⟨inner, hin⟩ := ih (childOr D k) v (Or.inl (childOr_ne_null D k))
      exact ⟨spreadSet D k inner, by rw [setValueByPath_cons_cons D hD, hin]; rfl⟩

theorem jsIndex_spreadSet_self (D : JSVal) (k : Seg) (X : JSVal) :
    jsIndex (spreadSet D k X) k = some X := by
  show lookupFirst (setEntry (spreadEntries D) (keyStr k) X) (keyStr k) = some X
  exact lookupFirst_setEntry_self _ _ _

theorem getValueByPath_setValueByPath : ∀ (p : List Seg) (D v D' : JSVal),
    setValueByPath D p v = .ok D' → getValueByPath D' p = some v := by
  intro p
  induction p with
  | nil =>
    intro D v D' h
    have hv : v = D' := by simpa [setValueByPath] using h
    subst hv
    rfl
  | cons k t ih =>
    cases t with
    | nil =>
      intro D v D' h
      rw [setValueByPath_single] at h
      have hv : spreadSet D k v = D' := by simpa using h
      subst hv
      rw [getValueByPath_cons, jsIndex_spreadSet_self]
      rfl
    | cons k1 rest =>
      intro D v D' h
      obtain ⟨hD, inner, hin, rfl⟩ := setValueByPath_cons_cons_ok h
      rw [getValueByPath_cons, jsIndex_spreadSet_self]
      exact ih _ _ _ hin

theorem entryGet_spreadSet_self (D : JSVal) (k : Seg) (X : JSVal) :
    entryGet (spreadSet D k X) (keyStr k) = some X :=
  lookupFirst_setEntry_self _ _ _

theorem entryGet_spreadSet_ne (D : JSVal) (k : Seg) (X : JSVal) (s : String)
    (h : s ≠ keyStr k) : entryGet (spreadSet D k X) s = entryGet D s :=
  lookupFirst_setEntry_ne _ _ _ _ h

theorem entryGetPath_congr_head {X Y : JSVal} (k : String) (ks : List String)
    (h : entryGet X k = entryGet Y k) :
    entryGetPath X (k :: ks) = entryGetPath Y (k :: ks) := by
  show (match entryGet X k with | some t => entryGetPath t ks | none => none) =
       (match entryGet Y k with | some t => entryGetPath t ks | none => none)
  rw [h]

theorem spreadEntries_falsy (t : JSVal) (h : truthy t = false) : spreadEntries t = [] := by
  cases t with
  | null => rfl
  | bool b => rfl
  | num n => rfl
  | str s =>
    have hs : s = "" := by simpa [truthy] using h
    subst hs
    rfl
  | obj fields => simp [truthy] at h
  | arr es => simp [truthy] at h

theorem jsIndex_entryGet (D : JSVal) (c : Seg) :
    jsIndex D c = entryGet D (keyStr c) ∨
    ∃ q, jsIndex D c = some (.num (.fin q)) ∧ entryGet D (keyStr c) = none := by
  cases D with
  | null => left; rfl
  | bool b => left; rfl
  | num n => left; rfl
  | obj fields => left; rfl
  | arr es =>
    by_cases hl : keyStr c = "length"
    · right
      refine ⟨(es.length : ℚ), ?_, ?_⟩
      · show (if keyStr c = "length" then some (JSVal.num (.fin (es.length : ℚ)))
            else lookupFirst (arrEntries es) (keyStr c)) = _
        rw [if_pos hl]
      · show lookupFirst (arrEntries es) (keyStr c) = none
        rw [hl, arrEntries]
        exact lookupFirst_entriesFrom_length _ _ _
    · left
      show (if keyStr c = "length" then some (JSVal.num (.fin (es.length : ℚ)))
          else lookupFirst (arrEntries es) (keyStr c)) = _
      rw [if_neg hl]
      rfl
  | str s =>
    by_cases hl : keyStr c = "length"
    · right
      refine ⟨(s.length : ℚ), ?_, ?_⟩
      · show (if keyStr c = "length" then some (JSVal.num (.fin (s.length : ℚ)))
            else lookupFirst (strEntries s) (keyStr c)) = _
        rw [if_pos hl]
      · show lookupFirst (strEntries s) (keyStr c) = none
        rw [hl, strEntries]
        exact lookupFirst_entriesFrom_length _ _ _
    · left
      show (if keyStr c = "length" then some (JSVal.num (.fin (s.length : ℚ)))
          else lookupFirst (strEntries s) (keyStr c)) = _
      rw [if_neg hl]
      rfl

theorem entryGetPath_childOr (D : JSVal) (c : Seg) (r : String) (R : List String) :
    entryGetPath (childOr D c) (r :: R) = entryGetPath D (keyStr c :: r :: R) := by
  have hrhs : entryGetPath D (keyStr c :: r :: R) =
      match entryGet D (keyStr c) with
      | some t => entryGetPath t (r :: R)
      | none => none := rfl
  rcases jsIndex_entryGet D c with heq | ⟨q, hj, he⟩
  · rw [hrhs]
    cases h : entryGet D (keyStr c) with
    | none =>
      simp only [childOr, heq, h]
      rfl
    | some t =>
      simp only [childOr, heq, h]
      by_cases ht : truthy t
      · rw [if_pos ht]
      · rw [if_neg ht]
        have h2 : entryGet t r = none := by
          show lookupFirst (spreadEntries t) r = none
          rw [spreadEntries_falsy t (by simpa using ht)]
          rfl
        have hR : entryGetPath t (r :: R) = none := by
          show (match entryGet t r with | some x => entryGetPath x R | none => none) = none
          rw [h2]
        rw [hR]
        rfl
  · rw [hrhs, he]
    simp only [childOr, hj]
    by_cases ht : truthy (.num (.fin q))
    · rw [if_pos ht]
      rfl
    · rw [if_neg ht]
      rfl

theorem entryGetPath_setValueByPath_offspine :
    ∀ (com : List Seg) (D v D' : JSVal) (a b : Seg) (ra rb : List Seg),
      keyStr a ≠ keyStr b →
      setValueByPath D (com ++ a :: ra) v = .ok D' →
      entryGetPath D' ((com ++ b :: rb).map keyStr) =
        entryGetPath D ((com ++ b :: rb).map keyStr) := by
  intro com
  induction com with
  | nil =>
    intro D v D' a b ra rb hne h
    simp only [List.nil_append, List.map_cons]
    have hshape : ∃ X, D' = spreadSet D a X := by
      cases ra with
      | nil =>
        rw [List.nil_append, setValueByPath_single] at h
        exact ⟨v, by simpa using h.symm⟩
      | cons k1 rest =>
        obtain ⟨hD, inner, hin, rfl⟩ := setValueByPath_cons_cons_ok h
        exact ⟨inner, rfl⟩
    obtain ⟨X, rfl⟩ := hshape
    exact entryGetPath_congr_head _ _ (entryGet_spreadSet_ne D a X _ (fun hh => hne hh.symm))
  | cons c com ih =>
    intro D v D' a b ra rb hne h
    obtain ⟨t, ts, hts⟩ : ∃ t ts, com ++ a :: ra = t :: ts := by
      cases com with
      | nil => exact ⟨a, ra, rfl⟩
      | cons c2 com2 => exact ⟨c2, com2 ++ a :: ra, rfl⟩
    rw [List.cons_append, hts] at h
    obtain ⟨hD, inner, hin, rfl⟩ := setValueByPath_cons_cons_ok h
    rw [← hts] at hin
    obtain ⟨r, R, hrR⟩ : ∃ r R, (com ++ b :: rb).map keyStr = r :: R := by
      cases com with
      | nil => exact ⟨keyStr b, rb.map keyStr, rfl⟩
      | cons c2 com2 => exact ⟨keyStr c2, (com2 ++ b :: rb).map keyStr, rfl⟩
    have hL : entryGetPath (spreadSet D c inner) (keyStr c :: (com ++ b :: rb).map keyStr) =
        entryGetPath inner ((com ++ b :: rb).map keyStr) := by
      show (match entryGet (spreadSet D c inner) (keyStr c) with
        | some t => entryGetPath t ((com ++ b :: rb).map keyStr)
        | none => none) = _
      rw [entryGet_spreadSet_self]
    calc entryGetPath (spreadSet D c inner) ((c :: com ++ b :: rb).map keyStr)
        = entryGetPath inner ((com ++ b :: rb).map keyStr) := by
          rw [List.cons_append, List.map_cons]
          exact hL
      _ = entryGetPath (childOr D c) ((com ++ b :: rb).map keyStr) := ih _ _ _ _ _ _ _ hne hin
      _ = entryGetPath D ((c :: com ++ b :: rb).map keyStr) := by
          rw [hrR, List.cons_append, List.map_cons, hrR]
          exact entryGetPath_childOr D c r R

theorem rowStep_falsy (acc : List (String × Option JSPrim)) (r : NodeRow)
    (h : rowKeyTruthy r = false) : rowStep acc r = acc := by
  simp [rowStep, h]

theorem rowStep_nonscalar (acc : List (String × Option JSPrim)) (r : NodeRow)
    (h : rowScalarType r = false) : rowStep acc r = acc := by
  simp [rowStep, h]

theorem buildEntries_skip (pre post : List NodeRow) (r : NodeRow)
    (h : rowKeyTruthy r = false) :
    buildEntries (pre ++ r :: post) = buildEntries (pre ++ post) := by
  rw [buildEntries, buildEntries, List.foldl_append, List.foldl_append, List.foldl_cons,
    rowStep_falsy _ _ h]

theorem normalizeNodeData_multi (rows : List NodeRow) (h : 2 ≤ rows.length) :
    normalizeNodeData rows = stringifyFlat (buildEntries rows) := by
  cases rows with
  | nil => simp at h
  | cons r1 t =>
    cases t with
    | nil => simp at h
    | cons r2 rest => simp [normalizeNodeData, buildEntries]

theorem foldl_rowStep_fresh :
    ∀ (rows : List NodeRow) (acc : List (String × Option JSPrim)),
      ((rows.filter (fun r => rowScalarType r && rowKeyTruthy r)).map
        (fun r => r.key.getD "")).Nodup →
      (∀ k ∈ (rows.filter (fun r => rowScalarType r && rowKeyTruthy r)).map
          (fun r => r.key.getD ""),
        acc.any (fun e => decide (e.1 = k)) = false) →
      rows.foldl rowStep acc =
        acc ++ (rows.filter (fun r => rowScalarType r && rowKeyTruthy r)).map
          (fun r => (r.key.getD "", r.value)) := by
  intro rows
  induction rows with
  | nil => intro acc _ _; simp
  | cons r rest ih =>
    intro acc hnd hfresh
    by_cases hsc : rowScalarType r = true
    · by_cases hkt : rowKeyTruthy r = true
      · have hfilter : (r :: rest).filter (fun r => rowScalarType r && rowKeyTruthy r) =
            r :: rest.filter (fun r => rowScalarType r && rowKeyTruthy r) := by
          simp [List.filter_cons, hsc, hkt]
        rw [hfilter] at hnd hfresh
        have hf : acc.any (fun e => decide (e.1 = r.key.getD "")) = false :=
          hfresh (r.key.getD "") (by simp)
        have hstep : rowStep acc r = acc ++ [(r.key.getD "", r.value)] := by
          rw [rowStep, if_pos hsc, if_pos hkt, setEntry, if_neg (by simp [hf])]
        rw [List.map_cons] at hnd
        have hndtail := (List.nodup_cons.mp hnd).2
        have hhead := (List.nodup_cons.mp hnd).1
        rw [List.foldl_cons, hstep, ih (acc ++ [(r.key.getD "", r.value)]) hndtail ?fresh]
        · rw [hfilter]
          simp [List.append_assoc]
        case fresh =>
          intro k hk
          rw [List.any_append]
          have h1 : acc.any (fun e => decide (e.1 = k)) = false :=
            hfresh k (List.mem_cons_of_mem _ hk)
          have h2 : r.key.getD "" ≠ k := by
            intro hh
            exact hhead (hh ▸ hk)
          simp [h1, h2]
      · have hkt' : rowKeyTruthy r = false := by simpa using hkt
        have hfilter : (r :: rest).filter (fun r => rowScalarType r && rowKeyTruthy r) =
            rest.filter (fun r => rowScalarType r && rowKeyTruthy r) := by
          simp [List.filter_cons, hkt']
        rw [hfilter] at hnd hfresh
        rw [List.foldl_cons, rowStep_falsy _ _ hkt', ih acc hnd hfresh, hfilter]
    · have hsc' : rowScalarType r = false := by simpa using hsc
      have hfilter : (r :: rest).filter (fun r => rowScalarType r && rowKeyTruthy r) =
          rest.filter (fun r => rowScalarType r && rowKeyTruthy r) := by
        simp [List.filter_cons, hsc']
      rw [hfilter] at hnd hfresh
      rw [List.foldl_cons, rowStep_nonscalar _ _ hsc', ih acc hnd hfresh, hfilter]

theorem mem_insertByIdx {α : Type} (e y : String × α) :
    ∀ l : List (String × α), y ∈ insertByIdx e l → y = e ∨ y ∈ l := by
  intro l
  induction l with
  | nil =>
    intro h
    rw [insertByIdx] at h
    exact Or.inl (by simpa using h)
  | cons x xs ih =>
    intro h
    rw [insertByIdx] at h
    by_cases hle : idxVal e ≤ idxVal x
    · rw [if_pos hle] at h
      rcases List.mem_cons.mp h with rfl | h2
      · exact Or.inl rfl
      · exact Or.inr h2
    · rw [if_neg hle] at h
      rcases List.mem_cons.mp h with rfl | h2
      · exact Or.inr (by simp)
      · rcases ih h2 with h3 | h3
        · exact Or.inl h3
        · exact Or.inr (List.mem_cons_of_mem _ h3)

theorem insertByIdx_pairwise {α : Type} (e : String × α) :
    ∀ l : List (String × α), l.Pairwise (fun a b => idxVal a ≤ idxVal b) →
      (insertByIdx e l).Pairwise (fun a b => idxVal a ≤ idxVal b) := by
  intro l
  induction l with
  | nil =>
    intro _
    rw [insertByIdx]
    simp
  | cons x xs ih =>
    intro h
    obtain ⟨hx, hxs⟩ := List.pairwise_cons.mp h
    rw [insertByIdx]
    by_cases hle : idxVal e ≤ idxVal x
    · rw [if_pos hle]
      refine List.pairwise_cons.mpr ⟨?_, h⟩
      intro y hy
      rcases List.mem_cons.mp hy with rfl | hy2
      · exact hle
      · exact le_trans hle (hx y hy2)
    · rw [if_neg hle]
      refine List.pairwise_cons.mpr ⟨?_, ih hxs⟩
      intro y hy
      rcases mem_insertByIdx e y xs hy with rfl | hy2
      · exact Nat.le_of_not_le hle
      · exact hx y hy2

theorem sortByIdx_pairwise {α : Type} :
    ∀ l : List (String × α), (sortByIdx l).Pairwise (fun a b => idxVal a ≤ idxVal b) := by
  intro l
  induction l with
  | nil => simp [sortByIdx]
  | cons x xs ih => exact insertByIdx_pairwise x _ ih

theorem insertByIdx_perm {α : Type} (e : String × α) :
    ∀ l : List (String × α), (insertByIdx e l).Perm (e :: l) := by
  intro l
  induction l with
  | nil => exact List.Perm.refl _
  | cons x xs ih =>
    rw [insertByIdx]
    by_cases hle : idxVal e ≤ idxVal x
    · rw [if_pos hle]
    · rw [if_neg hle]
      exact (List.Perm.cons x ih).trans (List.Perm.swap e x xs)

theorem sortByIdx_perm {α : Type} : ∀ l : List (String × α), (sortByIdx l).Perm l := by
  intro l
  induction l with
  | nil => exact List.Perm.refl _
  | cons x xs ih => exact (insertByIdx_perm x (sortByIdx xs)).trans (List.Perm.cons x ih)

theorem enumOrder_no_index {α : Type} (l : List (String × α))
    (h : ∀ e ∈ l, (keyArrayIndex e.1).isNone = true) : enumOrder l = l := by
  have h1 : l.filter (fun e => (keyArrayIndex e.1).isSome) = [] := by
    rw [List.filter_eq_nil]
    intro e he
    have hn := h e he
    rw [Option.isNone_iff_eq_none] at hn
    simp [hn]
  have h2 : l.filter (fun e => (keyArrayIndex e.1).isNone) = l :=
    List.filter_eq_self.mpr h
  rw [enumOrder, h1, h2]
  simp [sortByIdx]

/-! ## Claim theorems -/

/-- Claim C1 (code-bug exhibit): the guard `!nodeData?.path` only fires for a
nullish path.  The empty path — the root node — is a truthy empty array, so
`handleSave` proceeds: the whole document is replaced by the coerced value
and the new snapshot IS handed to the persistence collaborator, contradicting
the intended (and elsewhere-computed, cf. `isRootNode`) root rejection. -/
theorem c1_empty_path_save_replaces_document :
    handleSave (some []) (.ok (.num (.fin 5))) "hello" "string" =
      { persisted := some ("\"hello\"", true), isEditingAfter := false,
        toastError := none, toastSuccess := true, modalClosed := true } ∧
    handleSave none (.ok (.num (.fin 5))) "hello" "string" =
      saveFailure "Cannot edit root node" :=
  ⟨rfl, rfl⟩

/-- Claim C2 counterexample: number coercion accepts the empty string (as 0)
and accepts `Infinity` (a non-finite value), whereas the claim requires both
to fail with InvalidNumber. -/
theorem c2_number_coercion_counterexample :
    parseJsonValue "" "number" = .ok (.num (.fin 0)) ∧
    parseJsonValue "Infinity" "number" = .ok (.num .inf) := by
  constructor
  · have h : jsStringToNumber "" = .fin 0 := by
      simp [jsStringToNumber, show "".data = [] from rfl, jsWhitespace]
    simp [parseJsonValue, h, JSNum.isNaN]
  · have h : jsStringToNumber "Infinity" = .inf := by
      simp [jsStringToNumber, show "Infinity".data = ['I','n','f','i','n','i','t','y'] from rfl,
        jsWhitespace, parseSigned, parseUnsigned]
    simp [parseJsonValue, h, JSNum.isNaN]

/-- Claim C2 (amended): number coercion fails with InvalidNumber exactly when
`Number(rawText)` is NaN; in particular the empty string coerces to 0,
`"42"` to 42, `"abc"` fails, and `"Infinity"` coerces to the non-finite
infinity value (no finiteness check is performed). -/
theorem c2_number_coercion_amended :
    (∀ v : String, parseJsonValue v "number" =
      if (jsStringToNumber v).isNaN then .error "Invalid number"
      else .ok (.num (jsStringToNumber v))) ∧
    jsStringToNumber "42" = .fin 42 ∧
    jsStringToNumber "abc" = .nan ∧
    jsStringToNumber "" = .fin 0 ∧
    jsStringToNumber "Infinity" = .inf := by
  refine ⟨fun v => rfl, ?_, ?_, ?_, ?_⟩
  · simp [jsStringToNumber, show "42".data = ['4', '2'] from rfl, jsWhitespace, parseSigned,
      parseUnsigned, parseDec, powTen, decodeDigits]
  · simp [jsStringToNumber, show "abc".data = ['a', 'b', 'c'] from rfl, jsWhitespace,
      parseSigned, parseUnsigned, parseDec]
  · simp [jsStringToNumber, show "".data = [] from rfl, jsWhitespace]
  · simp [jsStringToNumber, show "Infinity".data = ['I','n','f','i','n','i','t','y'] from rfl,
      jsWhitespace, parseSigned, parseUnsigned]

/-- Claim C3: for every document, every path present in it, and every value,
replacing at the path succeeds and reading the path back from the result
yields exactly the written value. -/
theorem c3_replace_read_round_trip (D : JSVal) (p : List Seg) (v : JSVal)
    (hpresent : (getValueByPath D p).isSome = true) :
    ∃ D', setValueByPath D p v = .ok D' ∧ getValueByPath D' p = some v := by
  have hok : ∃ D', setValueByPath D p v = .ok D' := by
    cases p with
    | nil => exact setValueByPath_total [] D v (Or.inr (by simp))
    | cons k t =>
      cases t with
      | nil => exact setValueByPath_total [k] D v (Or.inr (by simp))
      | cons k1 rest =>
        refine setValueByPath_total _ D v (Or.inl ?_)
        intro hnull
        subst hnull
        rw [getValueByPath_cons] at hpresent
        have hnone : jsIndex JSVal.null k = none := rfl
        rw [hnone] at hpresent
        simp at hpresent
  obtain ⟨D', hD'⟩ := hok
  exact ⟨D', hD', getValueByPath_setValueByPath p D v D' hD'⟩

/-- Witness for C3 at a concrete document, path and value. -/
theorem c3_replace_read_round_trip_witness :
    (getValueByPath (.obj [("a", .num (.fin 1))]) [.key "a"]).isSome = true ∧
    ∃ D', setValueByPath (.obj [("a", .num (.fin 1))]) [.key "a"] (.str "x") = .ok D' ∧
      getValueByPath D' [.key "a"] = some (.str "x") :=
  ⟨rfl, c3_replace_read_round_trip _ _ _ rfl⟩

/-- Claim C4: whenever replace succeeds, every subtree position that diverges
from the replaced path (same common prefix, then a different property key)
reads back structurally identical to the corresponding input subtree — the
entry found there is the very same value, so nothing off the spine is
cloned or altered. -/
theorem c4_offspine_subtrees_preserved (com : List Seg) (D v D' : JSVal) (a b : Seg)
    (ra rb : List Seg) (hne : keyStr a ≠ keyStr b)
    (h : setValueByPath D (com ++ a :: ra) v = .ok D') :
    entryGetPath D' ((com ++ b :: rb).map keyStr) =
      entryGetPath D ((com ++ b :: rb).map keyStr) :=
  entryGetPath_setValueByPath_offspine com D v D' a b ra rb hne h

/-- Witness for C4: replacing at `$["a"]["x"]` leaves the sibling `$["b"]`
subtree identical. -/
theorem c4_offspine_subtrees_preserved_witness :
    keyStr (Seg.key "a") ≠ keyStr (Seg.key "b") ∧
    setValueByPath (.obj [("a", .obj [("x", .num (.fin 1))]), ("b", .str "keep")])
        ([] ++ Seg.key "a" :: [Seg.key "x"]) (.num (.fin 2)) =
      .ok (.obj [("a", .obj [("x", .num (.fin 2))]), ("b", .str "keep")]) ∧
    entryGetPath (.obj [("a", .obj [("x", .num (.fin 2))]), ("b", .str "keep")])
        (([] ++ Seg.key "b" :: ([] : List Seg)).map keyStr) =
      entryGetPath (.obj [("a", .obj [("x", .num (.fin 1))]), ("b", .str "keep")])
        (([] ++ Seg.key "b" :: ([] : List Seg)).map keyStr) :=
  ⟨by decide, rfl,
    c4_offspine_subtrees_preserved [] _ _ _ (Seg.key "a") (Seg.key "b") [Seg.key "x"] []
      (by decide) rfl⟩

/-- Claim C5 counterexample: replacing index 0 of the two-element array
`["a","b"]` yields a plain object with string-numeral keys, not an array —
the container kind along the spine is not preserved. -/
theorem c5_array_spine_counterexample :
    setValueByPath (.arr [.str "a", .str "b"]) [.idx 0] (.str "c") =
      .ok (.obj [("0", .str "c"), ("1", .str "b")]) ∧
    (setValueByPath (.arr [.str "a", .str "b"]) [.idx 0] (.str "c")).map isArr =
      .ok false :=
  ⟨rfl, rfl⟩

/-- Claim C5 (amended): for a non-empty path, replace returns a plain object
(never an array, even when the input container was one) whose entries are
those of the input container — array and string elements appearing under
their numeral keys — except the head key, which is bound to the value (last
segment) or to the recursive replacement of the truthy existing child or a
fresh empty object. -/
theorem c5_replace_shallow_object (D : JSVal) (h : Seg) (rest : List Seg) (v D' : JSVal)
    (hok : setValueByPath D (h :: rest) v = .ok D') :
    isArr D' = false ∧
    (∀ s : String, s ≠ keyStr h → entryGet D' s = entryGet D s) ∧
    ((rest = [] ∧ entryGet D' (keyStr h) = some v) ∨
     (rest ≠ [] ∧ ∃ inner, setValueByPath (childOr D h) rest v = .ok inner ∧
        entryGet D' (keyStr h) = some inner)) := by
  cases rest with
  | nil =>
    rw [setValueByPath_single] at hok
    have hv : spreadSet D h v = D' := by simpa using hok
    subst hv
    exact ⟨rfl, fun s hs => entryGet_spreadSet_ne D h v s hs,
      Or.inl ⟨rfl, entryGet_spreadSet_self D h v⟩⟩
  | cons k1 rr =>
    obtain ⟨hD, inner, hin, rfl⟩ := setValueByPath_cons_cons_ok hok
    exact ⟨rfl, fun s hs => entryGet_spreadSet_ne D h inner s hs,
      Or.inr ⟨by simp, inner, hin, entryGet_spreadSet_self D h inner⟩⟩

/-- Witness for the amended C5 on the array counterexample input: the result
is the object above, it is not an array, and the untouched element is
preserved under its numeral key. -/
theorem c5_replace_shallow_object_witness :
    setValueByPath (.arr [.str "a", .str "b"]) [Seg.idx 0] (.str "c") =
      .ok (.obj [("0", .str "c"), ("1", .str "b")]) ∧
    isArr (.obj [("0", .str "c"), ("1", .str "b")]) = false ∧
    ("1" : String) ≠ keyStr (Seg.idx 0) ∧
    entryGet (.obj [("0", .str "c"), ("1", .str "b")]) "1" =
      entryGet (.arr [.str "a", .str "b"]) "1" :=
  ⟨rfl,
    (c5_replace_shallow_object (.arr [.str "a", .str "b"]) (Seg.idx 0) [] (.str "c")
      (.obj [("0", .str "c"), ("1", .str "b")]) rfl).1,
    by decide,
    (c5_replace_shallow_object (.arr [.str "a", .str "b"]) (Seg.idx 0) [] (.str "c")
      (.obj [("0", .str "c"), ("1", .str "b")]) rfl).2.1 "1" (by decide)⟩

/-- Claim C6: boolean coercion never fails and yields true exactly when the
lower-cased text is `"true"`; `"false"`, `"yes"` and every other text give
false. -/
theorem c6_boolean_coercion :
    (∀ v : String, parseJsonValue v "boolean" = .ok (.bool (jsToLower v == "true"))) ∧
    parseJsonValue "true" "boolean" = .ok (.bool true) ∧
    parseJsonValue "false" "boolean" = .ok (.bool false) ∧
    parseJsonValue "TRUE" "boolean" = .ok (.bool true) ∧
    parseJsonValue "yes" "boolean" = .ok (.bool false) := by
  refine ⟨fun v => rfl, ?_, ?_, ?_, ?_⟩
  · have h : jsToLower "true" = "true" := by
      simp only [jsToLower, String.map_eq]; rfl
    simp [parseJsonValue, h]
  · have h : jsToLower "false" = "false" := by
      simp only [jsToLower, String.map_eq]; rfl
    simp [parseJsonValue, h]
  · have h : jsToLower "TRUE" = "true" := by
      simp only [jsToLower, String.map_eq]; rfl
    simp [parseJsonValue, h]
  · have h : jsToLower "yes" = "yes" := by
      simp only [jsToLower, String.map_eq]; rfl
    simp [parseJsonValue, h]

/-- Claim C7 counterexample: on two number rows keyed `""` and `"a"`, the code
silently drops the empty-keyed row, while the spec's mapping (every row's key
to its value, skipping only container-typed rows) keeps it; and on rows keyed
`"2"` then `"1"` the rendered key order is NOT the original row order —
JavaScript enumerates array-index keys in ascending numeric order. -/
theorem c7_content_view_counterexample :
    normalizeNodeData
        [⟨some "", some (.pnum (.fin 5)), "number"⟩,
         ⟨some "a", some (.pnum (.fin 1)), "number"⟩] = "\x7b\n  \"a\": 1\n\x7d" ∧
    normalizeNodeDataSpecView
        [⟨some "", some (.pnum (.fin 5)), "number"⟩,
         ⟨some "a", some (.pnum (.fin 1)), "number"⟩] = "\x7b\n  \"\": 5,\n  \"a\": 1\n\x7d" ∧
    normalizeNodeData
        [⟨some "", some (.pnum (.fin 5)), "number"⟩,
         ⟨some "a", some (.pnum (.fin 1)), "number"⟩] ≠
      normalizeNodeDataSpecView
        [⟨some "", some (.pnum (.fin 5)), "number"⟩,
         ⟨some "a", some (.pnum (.fin 1)), "number"⟩] ∧
    normalizeNodeData
        [⟨some "2", some (.pnum (.fin 5)), "number"⟩,
         ⟨some "1", some (.pnum (.fin 6)), "number"⟩] = "\x7b\n  \"1\": 6,\n  \"2\": 5\n\x7d" ∧
    normalizeNodeData
        [⟨some "2", some (.pnum (.fin 5)), "number"⟩,
         ⟨some "1", some (.pnum (.fin 6)), "number"⟩] ≠ "\x7b\n  \"2\": 5,\n  \"1\": 6\n\x7d" :=
  ⟨rfl, rfl, by decide, rfl, by decide⟩

/-- Claim C7 (amended): the empty row list renders `\x7b\x7d`; a single row with a
falsy key renders its template-stringified value; two or more rows render the
pretty-printed flat object built by the loop, which skips container-typed
rows AND rows whose key is absent or empty, and (for distinct keys) binds the
remaining rows' keys to their values.  The rendered key order is JavaScript's
enumeration order, not plain row order: keys that are canonical array indices
come first, sorted ascending numerically (a sorted permutation of the
index-keyed entries), followed by the remaining keys in original row order —
row order is preserved verbatim only when no key is an array index. -/
theorem c7_content_view_amended :
    (normalizeNodeData [] = "\x7b\x7d") ∧
    (∀ r : NodeRow, rowKeyTruthy r = false → normalizeNodeData [r] = jsTemplate r.value) ∧
    (∀ rows : List NodeRow, 2 ≤ rows.length →
      normalizeNodeData rows = stringifyFlat (buildEntries rows)) ∧
    (∀ rows : List NodeRow,
      ((rows.filter (fun r => rowScalarType r && rowKeyTruthy r)).map
        (fun r => r.key.getD "")).Nodup →
      buildEntries rows =
        (rows.filter (fun r => rowScalarType r && rowKeyTruthy r)).map
          (fun r => (r.key.getD "", r.value))) ∧
    (∀ entries : List (String × Option JSPrim),
      (sortByIdx (entries.filter (fun e => (keyArrayIndex e.1).isSome))).Pairwise
          (fun a b => idxVal a ≤ idxVal b) ∧
      (sortByIdx (entries.filter (fun e => (keyArrayIndex e.1).isSome))).Perm
          (entries.filter (fun e => (keyArrayIndex e.1).isSome)) ∧
      enumOrder entries =
        sortByIdx (entries.filter (fun e => (keyArrayIndex e.1).isSome)) ++
          entries.filter (fun e => (keyArrayIndex e.1).isNone)) ∧
    (∀ entries : List (String × Option JSPrim),
      (∀ e ∈ entries, (keyArrayIndex e.1).isNone = true) → enumOrder entries = entries) ∧
    (normalizeNodeData
        [⟨some "2", some (.pnum (.fin 5)), "number"⟩,
         ⟨some "1", some (.pnum (.fin 6)), "number"⟩] = "\x7b\n  \"1\": 6,\n  \"2\": 5\n\x7d") ∧
    (normalizeNodeData
        [⟨some "b", some (.pnum (.fin 5)), "number"⟩,
         ⟨some "a", some (.pnum (.fin 6)), "number"⟩] = "\x7b\n  \"b\": 5,\n  \"a\": 6\n\x7d") ∧
    (normalizeNodeData
        [⟨some "a", some (.pnum (.fin 1)), "number"⟩, ⟨some "b", none, "array"⟩] =
      "\x7b\n  \"a\": 1\n\x7d") := by
  refine ⟨rfl, ?_, normalizeNodeData_multi, ?_,
    fun entries => ⟨sortByIdx_pairwise _, sortByIdx_perm _, rfl⟩,
    fun entries h => enumOrder_no_index entries h, rfl, rfl, rfl⟩
  · intro r h
    simp [normalizeNodeData, h]
  · intro rows hnd
    have := foldl_rowStep_fresh rows [] hnd (fun k _ => rfl)
    simpa [buildEntries] using this

/-- Witness for the amended C7: each hypothesis-bearing case evaluated at a
concrete row or entry list. -/
theorem c7_content_view_amended_witness :
    rowKeyTruthy ⟨none, some (.pstr "hello"), "string"⟩ = false ∧
    normalizeNodeData [⟨none, some (.pstr "hello"), "string"⟩] =
      jsTemplate (some (.pstr "hello")) ∧
    2 ≤ ([⟨some "a", some (.pnum (.fin 1)), "number"⟩,
          ⟨some "b", none, "array"⟩] : List NodeRow).length ∧
    normalizeNodeData
        [⟨some "a", some (.pnum (.fin 1)), "number"⟩, ⟨some "b", none, "array"⟩] =
      stringifyFlat (buildEntries
        [⟨some "a", some (.pnum (.fin 1)), "number"⟩, ⟨some "b", none, "array"⟩]) ∧
    buildEntries
        [⟨some "a", some (.pnum (.fin 1)), "number"⟩, ⟨some "b", none, "array"⟩] =
      [("a", some (.pnum (.fin 1)))] ∧
    enumOrder ([("b", some (.pnum (.fin 5))), ("a", some (.pnum (.fin 6)))] :
        List (String × Option JSPrim)) =
      [("b", some (.pnum (.fin 5))), ("a", some (.pnum (.fin 6)))] :=
  ⟨rfl, c7_content_view_amended.2.1 _ rfl, by decide,
    c7_content_view_amended.2.2.1 _ (by decide),
    by
      have h := c7_content_view_amended.2.2.2.1
        [⟨some "a", some (.pnum (.fin 1)), "number"⟩, ⟨some "b", none, "array"⟩] (by decide)
      simpa using h,
    c7_content_view_amended.2.2.2.2.2.1 _ (by decide)⟩

/-- Claim C8 counterexample: a string intermediate value does not
short-circuit to undefined — an in-range index into `"hi"` yields the
character `"h"`. -/
theorem c8_string_index_counterexample :
    getValueByPath (.obj [("a", .str "hi")]) [.key "a", .idx 0] = some (.str "h") ∧
    (getValueByPath (.obj [("a", .str "hi")]) [.key "a", .idx 0]).isSome = true :=
  ⟨rfl, rfl⟩

/-- Claim C8 (amended): read walks the path segment by segment and
short-circuits to undefined on a nullish value, a number or boolean, a
missing object key, or an out-of-range array index — but strings are
indexable: an in-range index yields the one-character string (and out of
range gives undefined). -/
theorem c8_read_short_circuit :
    (∀ (D : JSVal) (k : Seg) (p : List Seg),
      getValueByPath D (k :: p) =
        match jsIndex D k with
        | some t => getValueByPath t p
        | none => none) ∧
    (∀ (k : Seg) (n : JSNum) (b : Bool),
      jsIndex (.num n) k = none ∧ jsIndex (.bool b) k = none ∧ jsIndex .null k = none) ∧
    (∀ (fields : List (String × JSVal)) (k : Seg),
      jsIndex (.obj fields) k = lookupFirst fields (keyStr k)) ∧
    (∀ (es : List JSVal) (n : Nat), jsIndex (.arr es) (.idx n) = es[n]?) ∧
    (∀ (s : String) (n : Nat),
      jsIndex (.str s) (.idx n) = (s.data[n]?).map (fun c => JSVal.str (String.mk [c]))) :=
  ⟨getValueByPath_cons, fun k n b => ⟨rfl, rfl, rfl⟩, fun fields k => rfl,
    jsIndex_arr_idx, jsIndex_str_idx⟩

/-- Claim C9: a save that fails at decode, coerce or replace leaves the
session editing and hands nothing to the persistence collaborator. -/
theorem c9_save_failure_atomic (p : List Seg) (parseResult : Except String JSVal)
    (editValue editType : String)
    (hfail : (∃ m, parseResult = .error m) ∨
      (∃ m, parseJsonValue editValue editType = .error m) ∨
      (∃ m json w, parseResult = .ok json ∧ parseJsonValue editValue editType = .ok w ∧
        setValueByPath json p w = .error m)) :
    (handleSave (some p) parseResult editValue editType).persisted = none ∧
    (handleSave (some p) parseResult editValue editType).isEditingAfter = true := by
  rcases hfail with ⟨m, hm⟩ | ⟨m, hm⟩ | ⟨m, json, w, hj, hw, hs⟩
  · subst hm
    exact ⟨rfl, rfl⟩
  · cases parseResult with
    | error m2 => exact ⟨rfl, rfl⟩
    | ok json => constructor <;> simp [handleSave, hm, saveFailure]
  · subst hj
    constructor <;> simp [handleSave, hw, hs, saveFailure]

/-- Witness for C9 at a failing decode. -/
theorem c9_save_failure_atomic_witness :
    (handleSave (some [Seg.key "a"]) (.error "bad json") "1" "number").persisted = none ∧
    (handleSave (some [Seg.key "a"]) (.error "bad json") "1" "number").isEditingAfter = true :=
  c9_save_failure_atomic _ _ _ _ (Or.inl ⟨"bad json", rfl⟩)

/-- Claim C10: in the multi-row case, a row whose key is absent or empty
contributes nothing — removing it (while both lists stay multi-row) leaves
the rendered content unchanged. -/
theorem c10_falsy_key_rows_omitted (pre post : List NodeRow) (r : NodeRow)
    (hk : rowKeyTruthy r = false)
    (h1 : 2 ≤ (pre ++ r :: post).length) (h2 : 2 ≤ (pre ++ post).length) :
    normalizeNodeData (pre ++ r :: post) = normalizeNodeData (pre ++ post) := by
  rw [normalizeNodeData_multi _ h1, normalizeNodeData_multi _ h2, buildEntries_skip _ _ _ hk]

/-- Witness for C10: dropping an empty-keyed row from a three-row node leaves
the rendering unchanged. -/
theorem c10_falsy_key_rows_omitted_witness :
    rowKeyTruthy ⟨some "", some (.pnum (.fin 9)), "number"⟩ = false ∧
    2 ≤ ([⟨some "a", some (.pnum (.fin 1)), "number"⟩] ++
          (⟨some "", some (.pnum (.fin 9)), "number"⟩ : NodeRow) ::
            [⟨some "b", some (.pnum (.fin 2)), "number"⟩] : List NodeRow).length ∧
    2 ≤ ([⟨some "a", some (.pnum (.fin 1)), "number"⟩] ++
          [⟨some "b", some (.pnum (.fin 2)), "number"⟩] : List NodeRow).length ∧
    normalizeNodeData
        ([⟨some "a", some (.pnum (.fin 1)), "number"⟩] ++
          (⟨some "", some (.pnum (.fin 9)), "number"⟩ : NodeRow) ::
            [⟨some "b", some (.pnum (.fin 2)), "number"⟩]) =
      normalizeNodeData
        ([⟨some "a", some (.pnum (.fin 1)), "number"⟩] ++
          [⟨some "b", some (.pnum (.fin 2)), "number"⟩]) :=
  ⟨rfl, by decide, by decide,
    c10_falsy_key_rows_omitted _ _ _ rfl (by decide) (by decide)⟩

end NodeModal
